import Mathlib

/-!
A shallow embedding of the signaling / queue-management server of this
repository (`src/index.js`, the `io.on('connection', ...)` handlers).

Connection identities (socket ids) and session codes are `String`s.  The
in-memory object `sessions` (`src/index.js:48`) is embedded as an association
list from session code to `Session`; JavaScript object semantics (insertion
order preserved, key overwrite in place, `delete` removes the key) are
mirrored by `setEntry` / `delEntry`.  The per-socket `socket.data` record is
embedded as an association list from socket id to `ConnData`.  Every
`io.to(x).emit(ev, payload)` becomes a `Msg` value in the handler's output
list, in emission order; socket.io delivers such an emission only when a live
socket `x` exists, which `delivered` models.  Callback acknowledgements
(`cb(...)`) are returned separately from the emission list.
-/

/-- One interview session: `sessions[CODE] = { host, queue, activeCandidate }`
(`src/index.js:47-48,63`). -/
structure Session where
  host : String
  queue : List String
  activeCandidate : Option String
deriving DecidableEq, Repr

/-- The role a connection acquires, `socket.data.role` (`'host'` /
`'candidate'`); `none` models an unbound connection (no field set). -/
inductive Role where
  | host
  | candidate
deriving DecidableEq, Repr

/-- Per-connection data `socket.data` (`role`, `sessionCode`). -/
structure ConnData where
  role : Option Role
  sessionCode : Option String
deriving DecidableEq, Repr

/-- The whole server state: the `sessions` object plus every socket's
`socket.data`. -/
structure ServerState where
  sessions : List (String × Session)
  conns : List (String × ConnData)
deriving DecidableEq, Repr

/-- JavaScript object write `obj[k] = v`: overwrite the existing key in
place, else append (JS objects keep string-key insertion order). -/
def setEntry {β : Type} (st : List (String × β)) (c : String) (v : β) :
    List (String × β) :=
  match st with
  | [] => [(c, v)]
  | (k, w) :: rest =>
    if k = c then (c, v) :: rest else (k, w) :: setEntry rest c v

/-- JavaScript `delete obj[k]`. -/
def delEntry {β : Type} (st : List (String × β)) (c : String) :
    List (String × β) :=
  st.filter (fun p => p.1 != c)

/-- `socket.data` of a connection; a socket that never bound anything has the
empty record (no `role`, no `sessionCode`). -/
def connOf (s : ServerState) (conn : String) : ConnData :=
  (s.conns.lookup conn).getD ⟨none, none⟩

/-- The six relayed signaling message kinds
(`src/index.js:170-206`). -/
inductive RelayKind where
  | offer
  | answer
  | ice
  | hostReady
  | screenShareStarted
  | screenShareStopped
deriving DecidableEq, Repr

/-- Server-to-client emissions, one constructor per event name; the first
argument is always the target socket id (`io.to(target).emit(...)`). -/
inductive Msg where
  | sessionCreated (tgt : String) (code : String)
  | queueUpdate (tgt : String) (queue : List String) (you : Option Nat)
  | interviewStart (tgt : String) (hostId : String)
  | candidateSelected (tgt : String) (candidate : String)
  | interviewEnded (tgt : String)
  | interviewEndedHost (tgt : String)
  | sessionDeleted (tgt : String)
  | candidateDisconnected (tgt : String)
  | relayMsg (kind : RelayKind) (tgt : String) (sender : String) (payload : String)
deriving DecidableEq, Repr

/-- The target socket id of an emission. -/
def Msg.target : Msg → String
  | .sessionCreated tgt _ => tgt
  | .queueUpdate tgt _ _ => tgt
  | .interviewStart tgt _ => tgt
  | .candidateSelected tgt _ => tgt
  | .interviewEnded tgt => tgt
  | .interviewEndedHost tgt => tgt
  | .sessionDeleted tgt => tgt
  | .candidateDisconnected tgt => tgt
  | .relayMsg _ tgt _ _ => tgt

/-- The emissions actually delivered, given the list of live socket ids:
`io.to(x)` is a no-op when no socket `x` exists. -/
def delivered (live : List String) (msgs : List Msg) : List Msg :=
  msgs.filter (fun m => live.contains m.target)

/-- Acknowledgement of `create_session`: `cb({ ok: true, code })`
(`src/index.js:68`). -/
structure CreateAck where
  ok : Bool
  code : Option String
deriving DecidableEq, Repr

/-- Acknowledgement of `join_session`: `cb({ ok: true, position })` or
`cb({ ok: false, error })` (`src/index.js:75,86,99`). -/
structure JoinAck where
  ok : Bool
  position : Option Nat
  error : Option String
deriving DecidableEq, Repr

/-- `create_session` handler (`src/index.js:60-70`).  `code` is the value the
`do { code = makeCode(6) } while (sessions[code])` loop delivered; the loop
redraws on collision, so the delivered code is never already in use — the
guard below makes the function total by treating a (never-delivered) stale
code as a no-op. -/
def handleCreate (s : ServerState) (conn code : String) :
    ServerState × List Msg × CreateAck :=
  if (s.sessions.lookup code).isSome then (s, [], ⟨false, none⟩)
  else
    (⟨setEntry s.sessions code ⟨conn, [], none⟩,
      setEntry s.conns conn ⟨some .host, some code⟩⟩,
     [Msg.sessionCreated conn code], ⟨true, some code⟩)

/-- `join_session` handler (`src/index.js:72-101`).  The JS guard is
`!session.queue.includes(socket.id) && session.activeCandidate !== socket.id`
(a `null` activeCandidate is `!==` any socket id).  In the already-present
branch the reported position is
`session.queue.indexOf(socket.id) + 1 || null`: `indexOf` is `-1` when the
caller is the active candidate and not queued, so `-1 + 1 = 0` is falsy and
`null` is reported. -/
def handleJoin (s : ServerState) (conn code : String) :
    ServerState × List Msg × JoinAck :=
  match s.sessions.lookup code with
  | none => (s, [], ⟨false, none, some "Invalid session code"⟩)
  | some sess =>
    if conn ∉ sess.queue ∧ sess.activeCandidate ≠ some conn then
      let q := sess.queue ++ [conn]
      (⟨setEntry s.sessions code ⟨sess.host, q, sess.activeCandidate⟩,
        setEntry s.conns conn ⟨some .candidate, some code⟩⟩,
       Msg.queueUpdate sess.host q none ::
         q.map (fun cid => Msg.queueUpdate cid q (some (q.indexOf cid + 1))),
       ⟨true, some (q.indexOf conn + 1), none⟩)
    else
      (s, [],
       ⟨true,
        if conn ∈ sess.queue then some (sess.queue.indexOf conn + 1) else none,
        none⟩)

/-- Emissions of the eviction step of `start_next` (`src/index.js:108-113`):
fired only when an active candidate exists. -/
def evictMsgs (sess : Session) : List Msg :=
  match sess.activeCandidate with
  | some prev => [Msg.interviewEnded prev, Msg.interviewEndedHost sess.host]
  | none => []

/-- `start_next` handler (`src/index.js:103-137`). -/
def handleStartNext (s : ServerState) (code : String) : ServerState × List Msg :=
  match s.sessions.lookup code with
  | none => (s, [])
  | some sess =>
    match sess.queue with
    | [] =>
      (⟨setEntry s.sessions code ⟨sess.host, sess.queue, none⟩, s.conns⟩,
       evictMsgs sess ++ [Msg.queueUpdate sess.host sess.queue none])
    | next :: rest =>
      (⟨setEntry s.sessions code ⟨sess.host, rest, some next⟩, s.conns⟩,
       evictMsgs sess ++
         [Msg.interviewStart next sess.host,
          Msg.candidateSelected sess.host next,
          Msg.queueUpdate sess.host rest none] ++
         rest.map (fun cid => Msg.queueUpdate cid rest (some (rest.indexOf cid + 1))))

/-- `end_interview` handler (`src/index.js:139-155`): `interview_ended` goes
to the active candidate only if one exists, `interview_ended_host` and the
queue/position broadcasts fire unconditionally. -/
def handleEndInterview (s : ServerState) (code : String) : ServerState × List Msg :=
  match s.sessions.lookup code with
  | none => (s, [])
  | some sess =>
    (⟨setEntry s.sessions code ⟨sess.host, sess.queue, none⟩, s.conns⟩,
     (match sess.activeCandidate with
      | some c => [Msg.interviewEnded c]
      | none => []) ++
       [Msg.interviewEndedHost sess.host,
        Msg.queueUpdate sess.host sess.queue none] ++
       sess.queue.map (fun cid =>
         Msg.queueUpdate cid sess.queue (some (sess.queue.indexOf cid + 1))))

/-- `end_interview_now` handler (`src/index.js:158-167`):
`Object.keys(sessions).find(c => sessions[c].host === socket.id)` is the
first session, in insertion order, hosted by the caller. -/
def handleEndInterviewNow (s : ServerState) (conn : String) : ServerState × List Msg :=
  match s.sessions.find? (fun p => p.2.host == conn) with
  | none => (s, [])
  | some (code, sess) =>
    (⟨setEntry s.sessions code ⟨sess.host, sess.queue, none⟩, s.conns⟩,
     (match sess.activeCandidate with
      | some c => [Msg.interviewEnded c]
      | none => []) ++ [Msg.interviewEndedHost sess.host])

/-- The six signaling relay handlers (`src/index.js:170-206`), which differ
only in the event name (the `kind`) and the name of the opaque forwarded
field (`sdp` / `candidate` / nothing); `payload` is that opaque content.
Each checks `if (!to) return;` (the empty string is the falsy string) and
otherwise emits `{ from: socket.id, ...payload }` to `to`.  No callback
exists, so no acknowledgement is ever returned to the sender. -/
def handleRelay (kind : RelayKind) (sender tgt payload : String) : List Msg :=
  if tgt = "" then [] else [Msg.relayMsg kind tgt sender payload]

/-- `disconnect` handler (`src/index.js:208-249`).  `socket.data.role` is a
single field, so the `role === 'host'` and `role === 'candidate'` branches
are mutually exclusive.  The candidate branch splices the (first) queue
occurrence out by index (`indexOf` / `splice(idx, 1)`, i.e. `List.erase`) and
then clears `activeCandidate` if it was this socket. -/
def handleDisconnect (s : ServerState) (conn : String) : ServerState × List Msg :=
  match (connOf s conn).role with
  | some .host =>
    match (connOf s conn).sessionCode with
    | some code =>
      match s.sessions.lookup code with
      | some sess =>
        (⟨delEntry s.sessions code, s.conns⟩,
         sess.queue.map Msg.sessionDeleted ++
           (match sess.activeCandidate with
            | some a => [Msg.sessionDeleted a]
            | none => []))
      | none => (s, [])
    | none => (s, [])
  | some .candidate =>
    match (connOf s conn).sessionCode with
    | some code =>
      match s.sessions.lookup code with
      | some sess =>
        let q : List String :=
          if conn ∈ sess.queue then sess.queue.erase conn else sess.queue
        let qMsgs : List Msg :=
          if conn ∈ sess.queue then
            q.map (fun cid => Msg.queueUpdate cid q (some (q.indexOf cid + 1))) ++
              [Msg.queueUpdate sess.host q none]
          else []
        let act : Option String :=
          if sess.activeCandidate = some conn then none else sess.activeCandidate
        let aMsgs : List Msg :=
          if sess.activeCandidate = some conn then
            [Msg.candidateDisconnected sess.host]
          else []
        (⟨setEntry s.sessions code ⟨sess.host, q, act⟩, s.conns⟩, qMsgs ++ aMsgs)
      | none => (s, [])
    | none => (s, [])
  | none => (s, [])

/-- One inbound client event, with the socket id of the sender where the
handler uses it. -/
inductive Event where
  | create (conn code : String)
  | join (conn code : String)
  | startNext (code : String)
  | endInterview (code : String)
  | endInterviewNow (conn : String)
  | relay (kind : RelayKind) (sender tgt payload : String)
  | disconnect (conn : String)
deriving DecidableEq, Repr

/-- Run-to-completion dispatch of one event. -/
def step (s : ServerState) (e : Event) : ServerState × List Msg :=
  match e with
  | .create conn code =>
    let r := handleCreate s conn code
    (r.1, r.2.1)
  | .join conn code =>
    let r := handleJoin s conn code
    (r.1, r.2.1)
  | .startNext code => handleStartNext s code
  | .endInterview code => handleEndInterview s code
  | .endInterviewNow conn => handleEndInterviewNow s conn
  | .relay kind sender tgt payload => (s, handleRelay kind sender tgt payload)
  | .disconnect conn => handleDisconnect s conn

/-- The empty server: no sessions, no socket has bound data. -/
def initState : ServerState := ⟨[], []⟩

/-- The state after a sequence of events, from the empty server. -/
def run (evs : List Event) : ServerState :=
  evs.foldl (fun s e => (step s e).1) initState

/-- A well-formed session: the queue has no duplicates and the active
candidate, when set, is not also queued. -/
def SessionWF (sess : Session) : Prop :=
  sess.queue.Nodup ∧ ∀ a ∈ sess.queue, sess.activeCandidate ≠ some a

/-- Every session in the store is well-formed. -/
def StoreWF (s : ServerState) : Prop :=
  ∀ p ∈ s.sessions, SessionWF p.2

theorem lookup_setEntry_self {β : Type} (st : List (String × β)) (c : String) (v : β) :
    (setEntry st c v).lookup c = some v := by
  induction st with
  | nil => simp [setEntry, List.lookup]
  | cons p rest ih =>
    obtain ⟨k, w⟩ := p
    by_cases hk : k = c
    · simp [setEntry, hk, List.lookup]
    · simp only [setEntry, if_neg hk, List.lookup]
      have : (c == k) = false := beq_false_of_ne (Ne.symm hk)
      simp [this, ih]

theorem lookup_setEntry_ne {β : Type} (st : List (String × β)) (c : String) (v : β)
    (c' : String) (h : c' ≠ c) : (setEntry st c v).lookup c' = st.lookup c' := by
  induction st with
  | nil => simp [setEntry, List.lookup, beq_false_of_ne h]
  | cons p rest ih =>
    obtain ⟨k, w⟩ := p
    by_cases hk : k = c
    · subst hk
      simp [setEntry, List.lookup, beq_false_of_ne h]
    · simp [setEntry, if_neg hk, List.lookup, ih]

theorem mem_setEntry {β : Type} {st : List (String × β)} {c : String} {v : β}
    {p : String × β} (hp : p ∈ setEntry st c v) : p ∈ st ∨ p = (c, v) := by
  induction st with
  | nil => simpa [setEntry] using hp
  | cons q rest ih =>
    obtain ⟨k, w⟩ := q
    by_cases hk : k = c
    · simp only [setEntry, if_pos hk, List.mem_cons] at hp
      rcases hp with h | h
      · exact Or.inr h
      · exact Or.inl (List.mem_cons_of_mem _ h)
    · simp only [setEntry, if_neg hk, List.mem_cons] at hp
      rcases hp with h | h
      · exact Or.inl (h ▸ List.mem_cons_self _ _)
      · rcases ih h with h' | h'
        · exact Or.inl (List.mem_cons_of_mem _ h')
        · exact Or.inr h'

theorem mem_delEntry {β : Type} {st : List (String × β)} {c : String}
    {p : String × β} (hp : p ∈ delEntry st c) : p ∈ st :=
  List.mem_of_mem_filter hp

theorem lookup_delEntry_self {β : Type} (st : List (String × β)) (c : String) :
    (delEntry st c).lookup c = none := by
  induction st with
  | nil => rfl
  | cons p rest ih =>
    obtain ⟨k, w⟩ := p
    simp only [delEntry, List.filter_cons] at ih ⊢
    by_cases hk : k = c
    · subst hk
      simpa using ih
    · have hbne : (k != c) = true := by simp [bne_iff_ne, hk]
      rw [hbne]
      simp only [if_true]
      simp only [List.lookup, beq_false_of_ne (Ne.symm hk)]
      exact ih

theorem lookup_delEntry_ne {β : Type} (st : List (String × β)) (c c' : String)
    (h : c' ≠ c) : (delEntry st c).lookup c' = st.lookup c' := by
  induction st with
  | nil => rfl
  | cons p rest ih =>
    obtain ⟨k, w⟩ := p
    simp only [delEntry, List.filter_cons] at ih ⊢
    by_cases hk : k = c
    · subst hk
      rw [if_neg (by simp : ¬((k != k) = true))]
      simp only [List.lookup, beq_false_of_ne h]
      exact ih
    · have hbne : (k != c) = true := by simp [bne_iff_ne, hk]
      rw [hbne]
      simp only [if_true]
      by_cases hck : c' = k
      · subst hck
        simp [List.lookup]
      · simp only [List.lookup, beq_false_of_ne hck]
        exact ih

theorem lookup_mem {β : Type} {st : List (String × β)} {c : String} {v : β}
    (h : st.lookup c = some v) : (c, v) ∈ st := by
  induction st with
  | nil => simp [List.lookup] at h
  | cons p rest ih =>
    obtain ⟨k, w⟩ := p
    by_cases hck : c = k
    · subst hck
      simp [List.lookup] at h
      simp [h]
    · simp only [List.lookup, beq_false_of_ne hck] at h
      exact List.mem_cons_of_mem _ (ih h)

theorem sessionWF_evict {sess : Session} (h : SessionWF sess) :
    SessionWF ⟨sess.host, sess.queue, none⟩ :=
  ⟨h.1, by simp⟩

theorem storeWF_step (s : ServerState) (e : Event) (h : StoreWF s) :
    StoreWF (step s e).1 := by
  cases e with
  | create conn code =>
    simp only [step, handleCreate]
    split
    · exact h
    · intro p hp
      rcases mem_setEntry hp with h1 | h1
      · exact h p h1
      · subst h1
        exact ⟨List.nodup_nil, by simp⟩
  | join conn code =>
    simp only [step, handleJoin]
    split
    · exact h
    · rename_i sess hlk
      split
      · rename_i hg
        have hsess : SessionWF sess := h _ (lookup_mem hlk)
        intro p hp
        rcases mem_setEntry hp with h1 | h1
        · exact h p h1
        · subst h1
          refine ⟨?_, ?_⟩
          · simp [List.nodup_append, hsess.1, hg.1]
          · intro a ha
            rcases List.mem_append.mp ha with ha' | ha'
            · exact hsess.2 a ha'
            · simp only [List.mem_singleton] at ha'
              subst ha'
              exact hg.2
      · exact h
  | startNext code =>
    simp only [step, handleStartNext]
    split
    · exact h
    · rename_i sess hlk
      have hsess : SessionWF sess := h _ (lookup_mem hlk)
      split
      · intro p hp
        rcases mem_setEntry hp with h1 | h1
        · exact h p h1
        · subst h1
          exact sessionWF_evict hsess
      · rename_i next rest hq
        intro p hp
        rcases mem_setEntry hp with h1 | h1
        · exact h p h1
        · subst h1
          have hnd := hsess.1
          rw [hq, List.nodup_cons] at hnd
          refine ⟨hnd.2, ?_⟩
          intro a ha hcontra
          simp only [Option.some.injEq] at hcontra
          exact hnd.1 (hcontra ▸ ha)
  | endInterview code =>
    simp only [step, handleEndInterview]
    split
    · exact h
    · rename_i sess hlk
      intro p hp
      rcases mem_setEntry hp with h1 | h1
      · exact h p h1
      · subst h1
        exact sessionWF_evict (h _ (lookup_mem hlk))
  | endInterviewNow conn =>
    simp only [step, handleEndInterviewNow]
    split
    · exact h
    · rename_i p0 code sess hfind
      intro p hp
      rcases mem_setEntry hp with h1 | h1
      · exact h p h1
      · subst h1
        exact sessionWF_evict (h _ (List.mem_of_find?_eq_some hfind))
  | relay kind sender tgt payload =>
    exact h
  | disconnect conn =>
    simp only [step, handleDisconnect]
    split
    · -- role = host
      split
      · split
        · rename_i sess hlk
          intro p hp
          exact h p (mem_delEntry hp)
        · exact h
      · exact h
    · -- role = candidate
      split
      · split
        · rename_i sess hlk
          have hsess : SessionWF sess := h _ (lookup_mem hlk)
          intro p hp
          rcases mem_setEntry hp with h1 | h1
          · exact h p h1
          · subst h1
            constructor
            · by_cases hm : conn ∈ sess.queue
              · simpa [hm] using hsess.1.erase conn
              · simpa [hm] using hsess.1
            · intro a ha
              by_cases hac : sess.activeCandidate = some conn
              · simp [hac]
              · simp only [if_neg hac]
                simp only [if_neg hac] at ha
                by_cases hm : conn ∈ sess.queue
                · simp only [if_pos hm] at ha
                  exact hsess.2 a (List.erase_subset _ _ ha)
                · simp only [if_neg hm] at ha
                  exact hsess.2 a ha
        · exact h
      · exact h
    · -- role unset
      exact h

theorem storeWF_foldl (evs : List Event) :
    ∀ s : ServerState, StoreWF s →
      StoreWF (evs.foldl (fun s e => (step s e).1) s) := by
  induction evs with
  | nil => intro s hs; exact hs
  | cons e rest ih =>
    intro s hs
    exact ih _ (storeWF_step s e hs)

/-- Claim C3: in every state reachable from the empty server by any sequence
of events, every session's queue is duplicate-free and the session's active
candidate, when set, is not a member of its queue — a connection identity
occupies at most one of {queue, activeCandidate} within a session. -/
theorem c3_reachable_session_invariant (evs : List Event) : StoreWF (run evs) :=
  storeWF_foldl evs initState (by intro p hp; simp [initState] at hp)

/-- Claim C8: with an unknown session code, `join_session` acknowledges
`{ ok: false, error }` directly to the caller and emits nothing, while
`start_next` and `end_interview` are silently ignored; in all three cases the
server state is returned unchanged and no emission reaches any connection. -/
theorem c8_unknown_code (s : ServerState) (conn code : String)
    (h : s.sessions.lookup code = none) :
    handleJoin s conn code = (s, [], ⟨false, none, some "Invalid session code"⟩) ∧
    handleStartNext s code = (s, []) ∧
    handleEndInterview s code = (s, []) := by
  refine ⟨?_, ?_, ?_⟩ <;> simp [handleJoin, handleStartNext, handleEndInterview, h]

theorem c8_unknown_code_witness :
    (ServerState.mk [] []).sessions.lookup "AAAAAA" = none ∧
    handleJoin ⟨[], []⟩ "S1" "AAAAAA" =
      (⟨[], []⟩, [], ⟨false, none, some "Invalid session code"⟩) ∧
    handleStartNext ⟨[], []⟩ "AAAAAA" = (⟨[], []⟩, []) ∧
    handleEndInterview ⟨[], []⟩ "AAAAAA" = (⟨[], []⟩, []) :=
  ⟨rfl, c8_unknown_code ⟨[], []⟩ "S1" "AAAAAA" rfl⟩

/-- Claim C6: a `join_session` call by a connection already in the session's
queue, or already the active candidate, leaves the server state unchanged and
emits nothing, and still acknowledges `{ ok: true }` with the caller's
current position (its 1-indexed queue position when queued; `null` when it is
the active candidate, which holds no queue position). -/
theorem c6_idempotent_join (s : ServerState) (conn code : String) (sess : Session)
    (h : s.sessions.lookup code = some sess)
    (hmem : conn ∈ sess.queue ∨ sess.activeCandidate = some conn) :
    handleJoin s conn code =
      (s, [],
       ⟨true,
        if conn ∈ sess.queue then some (sess.queue.indexOf conn + 1) else none,
        none⟩) := by
  have hg : ¬(conn ∉ sess.queue ∧ sess.activeCandidate ≠ some conn) := by
    rcases hmem with hm | hm
    · intro hc; exact hc.1 hm
    · intro hc; exact hc.2 hm
  simp [handleJoin, h, hg]

theorem c6_idempotent_join_witness :
    (ServerState.mk [("AAAAAA", ⟨"H1", ["X1", "Y1"], some "Z1"⟩)] []).sessions.lookup
        "AAAAAA" = some ⟨"H1", ["X1", "Y1"], some "Z1"⟩ ∧
    ("Y1" ∈ ["X1", "Y1"] ∨ some "Z1" = some "Y1") ∧
    handleJoin ⟨[("AAAAAA", ⟨"H1", ["X1", "Y1"], some "Z1"⟩)], []⟩ "Y1" "AAAAAA" =
      (⟨[("AAAAAA", ⟨"H1", ["X1", "Y1"], some "Z1"⟩)], []⟩, [], ⟨true, some 2, none⟩) := by
  refine ⟨rfl, by decide, ?_⟩
  have := c6_idempotent_join ⟨[("AAAAAA", ⟨"H1", ["X1", "Y1"], some "Z1"⟩)], []⟩
    "Y1" "AAAAAA" ⟨"H1", ["X1", "Y1"], some "Z1"⟩ rfl (by decide)
  simpa using this

/-- Claim C10: `end_interview` on a valid session with no active candidate
leaves the session (queue and activeCandidate), all other sessions, and all
connection data unchanged, sends `interview_ended` to nobody, and still emits
`interview_ended_host` to the host plus `queue_update` broadcasts to the host
and to every queued candidate with their positions. -/
theorem c10_end_interview_no_active (s : ServerState) (code : String) (sess : Session)
    (h : s.sessions.lookup code = some sess) (hact : sess.activeCandidate = none) :
    (handleEndInterview s code).1.sessions.lookup code = some sess ∧
    (∀ c, c ≠ code → (handleEndInterview s code).1.sessions.lookup c = s.sessions.lookup c) ∧
    (handleEndInterview s code).1.conns = s.conns ∧
    (handleEndInterview s code).2 =
      Msg.interviewEndedHost sess.host :: Msg.queueUpdate sess.host sess.queue none ::
        sess.queue.map (fun cid =>
          Msg.queueUpdate cid sess.queue (some (sess.queue.indexOf cid + 1))) ∧
    (∀ x, Msg.interviewEnded x ∉ (handleEndInterview s code).2) := by
  obtain ⟨hostId, q, act⟩ := sess
  simp only at hact
  subst hact
  refine ⟨?_, ?_, ?_, ?_, ?_⟩
  · simp [handleEndInterview, h, lookup_setEntry_self]
  · intro c hc
    simp [handleEndInterview, h, lookup_setEntry_ne _ _ _ _ hc]
  · simp [handleEndInterview, h]
  · simp [handleEndInterview, h]
  · intro x
    simp [handleEndInterview, h]

theorem c10_end_interview_no_active_witness :
    (ServerState.mk [("AAAAAA", ⟨"H1", ["X1", "Y1"], none⟩)] []).sessions.lookup
        "AAAAAA" = some ⟨"H1", ["X1", "Y1"], none⟩ ∧
    (handleEndInterview ⟨[("AAAAAA", ⟨"H1", ["X1", "Y1"], none⟩)], []⟩
        "AAAAAA").1.sessions.lookup "AAAAAA" = some ⟨"H1", ["X1", "Y1"], none⟩ ∧
    (handleEndInterview ⟨[("AAAAAA", ⟨"H1", ["X1", "Y1"], none⟩)], []⟩ "AAAAAA").2 =
      [Msg.interviewEndedHost "H1", Msg.queueUpdate "H1" ["X1", "Y1"] none,
       Msg.queueUpdate "X1" ["X1", "Y1"] (some 1),
       Msg.queueUpdate "Y1" ["X1", "Y1"] (some 2)] := by
  have := c10_end_interview_no_active ⟨[("AAAAAA", ⟨"H1", ["X1", "Y1"], none⟩)], []⟩
    "AAAAAA" ⟨"H1", ["X1", "Y1"], none⟩ rfl rfl
  exact ⟨rfl, this.1, by rw [this.2.2.2.1]; decide⟩

/-- Claim C7: every relay kind is best-effort store-and-forward: the state is
returned unchanged, and the emission — the sender's payload unmodified,
tagged with the sender's id — is delivered exactly when a live socket with
the `to` identity exists, with nothing delivered (and no error surfaced: the
relay handlers return no acknowledgement by construction) otherwise. -/
theorem c7_relay_best_effort (s : ServerState) (kind : RelayKind)
    (sender tgt payload : String) (live : List String) (htgt : tgt ≠ "") :
    (step s (.relay kind sender tgt payload)).1 = s ∧
    (tgt ∈ live →
      delivered live (step s (.relay kind sender tgt payload)).2 =
        [Msg.relayMsg kind tgt sender payload]) ∧
    (tgt ∉ live →
      delivered live (step s (.relay kind sender tgt payload)).2 = []) := by
  refine ⟨rfl, ?_, ?_⟩ <;> intro hm <;>
    simp [step, handleRelay, htgt, delivered, Msg.target, hm]

theorem c7_relay_best_effort_witness :
    ("B1" : String) ≠ "" ∧
    (step ⟨[], []⟩ (.relay .offer "A1" "B1" "sdp-data")).1 = (⟨[], []⟩ : ServerState) ∧
    ("B1" ∈ ["B1", "H1"]) ∧
    delivered ["B1", "H1"] (step ⟨[], []⟩ (.relay .offer "A1" "B1" "sdp-data")).2 =
      [Msg.relayMsg .offer "B1" "A1" "sdp-data"] ∧
    ("B1" ∉ ["C1"]) ∧
    delivered ["C1"] (step ⟨[], []⟩ (.relay .offer "A1" "B1" "sdp-data")).2 = [] :=
  ⟨by decide,
   (c7_relay_best_effort ⟨[], []⟩ .offer "A1" "B1" "sdp-data" ["B1", "H1"] (by decide)).1,
   by decide,
   (c7_relay_best_effort ⟨[], []⟩ .offer "A1" "B1" "sdp-data" ["B1", "H1"]
      (by decide)).2.1 (by decide),
   by decide,
   (c7_relay_best_effort ⟨[], []⟩ .offer "A1" "B1" "sdp-data" ["C1"]
      (by decide)).2.2 (by decide)⟩

/-- Claim C1: `start_next` on a valid session: when an active candidate
exists the eviction emissions (`interview_ended` to the evicted candidate and
`interview_ended_host` to the host) come first, even when the queue is empty;
with an empty queue no new active candidate is set and only a host
`queue_update` follows; otherwise the queue head is removed, becomes the
active candidate, receives `interview_start` with the host's identity, the
host receives `candidate_selected` with the new candidate's identity, and
queue/position updates go to the host and all remaining waiters. -/
theorem c1_start_next (s : ServerState) (code : String) (sess : Session)
    (h : s.sessions.lookup code = some sess) :
    (∀ prev, sess.activeCandidate = some prev →
      evictMsgs sess = [Msg.interviewEnded prev, Msg.interviewEndedHost sess.host]) ∧
    (sess.queue = [] →
      (handleStartNext s code).1.sessions.lookup code = some ⟨sess.host, [], none⟩ ∧
      (handleStartNext s code).2 = evictMsgs sess ++ [Msg.queueUpdate sess.host [] none]) ∧
    (∀ next rest, sess.queue = next :: rest →
      (handleStartNext s code).1.sessions.lookup code = some ⟨sess.host, rest, some next⟩ ∧
      (handleStartNext s code).2 =
        evictMsgs sess ++
          [Msg.interviewStart next sess.host, Msg.candidateSelected sess.host next,
           Msg.queueUpdate sess.host rest none] ++
          rest.map (fun cid => Msg.queueUpdate cid rest (some (rest.indexOf cid + 1)))) := by
  refine ⟨?_, ?_, ?_⟩
  · intro prev hp
    simp [evictMsgs, hp]
  · intro hq
    constructor
    · simp [handleStartNext, h, hq, lookup_setEntry_self]
    · simp [handleStartNext, h, hq]
  · intro next rest hq
    constructor
    · simp [handleStartNext, h, hq, lookup_setEntry_self]
    · simp [handleStartNext, h, hq]

theorem c1_start_next_witness :
    (ServerState.mk [("AAAAAA", ⟨"H1", ["X1", "Y1"], some "W1"⟩)] []).sessions.lookup
        "AAAAAA" = some ⟨"H1", ["X1", "Y1"], some "W1"⟩ ∧
    evictMsgs ⟨"H1", ["X1", "Y1"], some "W1"⟩ =
      [Msg.interviewEnded "W1", Msg.interviewEndedHost "H1"] ∧
    (handleStartNext ⟨[("AAAAAA", ⟨"H1", ["X1", "Y1"], some "W1"⟩)], []⟩
        "AAAAAA").1.sessions.lookup "AAAAAA" = some ⟨"H1", ["Y1"], some "X1"⟩ ∧
    (handleStartNext ⟨[("AAAAAA", ⟨"H1", ["X1", "Y1"], some "W1"⟩)], []⟩ "AAAAAA").2 =
      [Msg.interviewEnded "W1", Msg.interviewEndedHost "H1",
       Msg.interviewStart "X1" "H1", Msg.candidateSelected "H1" "X1",
       Msg.queueUpdate "H1" ["Y1"] none, Msg.queueUpdate "Y1" ["Y1"] (some 1)] ∧
    (handleStartNext ⟨[("BBBBBB", ⟨"H2", [], some "W2"⟩)], []⟩ "BBBBBB").2 =
      [Msg.interviewEnded "W2", Msg.interviewEndedHost "H2",
       Msg.queueUpdate "H2" [] none] := by
  have h1 := c1_start_next ⟨[("AAAAAA", ⟨"H1", ["X1", "Y1"], some "W1"⟩)], []⟩
    "AAAAAA" ⟨"H1", ["X1", "Y1"], some "W1"⟩ rfl
  have h2 := c1_start_next ⟨[("BBBBBB", ⟨"H2", [], some "W2"⟩)], []⟩
    "BBBBBB" ⟨"H2", [], some "W2"⟩ rfl
  refine ⟨rfl, h1.1 "W1" rfl, (h1.2.2 "X1" ["Y1"] rfl).1, ?_, ?_⟩
  · rw [(h1.2.2 "X1" ["Y1"] rfl).2]
    decide
  · rw [(h2.2.1 rfl).2]
    decide

theorem indexOf_append_self (q : List String) (a : String) (h : a ∉ q) :
    (q ++ [a]).indexOf a = q.length := by
  induction q with
  | nil => simp
  | cons b rest ih =>
    simp only [List.mem_cons, not_or] at h
    simp [List.indexOf_cons, beq_false_of_ne (Ne.symm h.1), ih h.2]

/-- A sequence of `join_session` calls by `ids`, in order, on one session
code, collecting each call's acknowledged position. -/
def joinAll (s : ServerState) (code : String) (ids : List String) :
    ServerState × List (Option Nat) :=
  match ids with
  | [] => (s, [])
  | id :: rest =>
    let r := handleJoin s id code
    let r2 := joinAll r.1 code rest
    (r2.1, r.2.2.position :: r2.2)

theorem joinAll_go (ids : List String) :
    ∀ (s : ServerState) (code hostId : String) (q : List String),
      s.sessions.lookup code = some ⟨hostId, q, none⟩ →
      (q ++ ids).Nodup →
      (joinAll s code ids).1.sessions.lookup code = some ⟨hostId, q ++ ids, none⟩ ∧
      (joinAll s code ids).2 =
        (List.range ids.length).map (fun i => some (q.length + i + 1)) := by
  induction ids with
  | nil =>
    intro s code hostId q h hn
    simpa [joinAll] using h
  | cons id rest ih =>
    intro s code hostId q h hn
    have hid : id ∉ q := by
      rw [List.nodup_append] at hn
      intro hc
      exact hn.2.2 hc (List.mem_cons_self _ _)
    have hstep : handleJoin s id code =
        (⟨setEntry s.sessions code ⟨hostId, q ++ [id], none⟩,
          setEntry s.conns id ⟨some .candidate, some code⟩⟩,
         Msg.queueUpdate hostId (q ++ [id]) none ::
           (q ++ [id]).map (fun cid =>
             Msg.queueUpdate cid (q ++ [id]) (some ((q ++ [id]).indexOf cid + 1))),
         ⟨true, some ((q ++ [id]).indexOf id + 1), none⟩) := by
      simp [handleJoin, h, hid]
    have hlk' : (handleJoin s id code).1.sessions.lookup code =
        some ⟨hostId, q ++ [id], none⟩ := by
      rw [hstep]
      exact lookup_setEntry_self _ _ _
    have hn' : ((q ++ [id]) ++ rest).Nodup := by
      simpa [List.append_assoc] using hn
    have hrec := ih (handleJoin s id code).1 code hostId (q ++ [id]) hlk' hn'
    constructor
    · simpa [joinAll, List.append_assoc] using hrec.1
    · show (handleJoin s id code).2.2.position ::
        (joinAll (handleJoin s id code).1 code rest).2 = _
      rw [hrec.2, hstep]
      simp only [List.length_cons, List.range_succ_eq_map, List.map_cons, List.map_map,
        List.cons_eq_cons]
      refine ⟨?_, ?_⟩
      · rw [indexOf_append_self q id hid]
      · apply List.map_congr_left
        intro i _
        simp only [Function.comp_apply, List.length_append, List.length_singleton,
          Option.some.injEq]
        omega

/-- Claim C2: joining a fresh session by a sequence of pairwise-distinct
connection identities yields a queue in exactly arrival order, and the i-th
caller's acknowledged position is `i + 1` — one more than the number of
earlier-joined, still-queued candidates, which is also the 1-indexed queue
position of its entry at ack time. -/
theorem c2_fifo_positions (s : ServerState) (code hostId : String) (ids : List String)
    (h : s.sessions.lookup code = some ⟨hostId, [], none⟩) (hids : ids.Nodup) :
    (joinAll s code ids).1.sessions.lookup code = some ⟨hostId, ids, none⟩ ∧
    (joinAll s code ids).2 = (List.range ids.length).map (fun i => some (i + 1)) := by
  have := joinAll_go ids s code hostId [] h (by simpa using hids)
  simpa using this

theorem c2_fifo_positions_witness :
    (ServerState.mk [("AAAAAA", ⟨"H1", [], none⟩)] []).sessions.lookup "AAAAAA" =
      some ⟨"H1", [], none⟩ ∧
    (["X1", "Y1", "Z1"] : List String).Nodup ∧
    (joinAll ⟨[("AAAAAA", ⟨"H1", [], none⟩)], []⟩ "AAAAAA"
        ["X1", "Y1", "Z1"]).1.sessions.lookup "AAAAAA" =
      some ⟨"H1", ["X1", "Y1", "Z1"], none⟩ ∧
    (joinAll ⟨[("AAAAAA", ⟨"H1", [], none⟩)], []⟩ "AAAAAA" ["X1", "Y1", "Z1"]).2 =
      [some 1, some 2, some 3] := by
  have := c2_fifo_positions ⟨[("AAAAAA", ⟨"H1", [], none⟩)], []⟩ "AAAAAA" "H1"
    ["X1", "Y1", "Z1"] rfl (by decide)
  exact ⟨rfl, by decide, this.1, by rw [this.2]; decide⟩

/-- Claim C5: disconnection of a candidate connection bound to a session:
if its identity sits in the queue (at position `|l1| + 1`, say, with the
queue `l1 ++ conn :: l2`), exactly that entry is spliced out — earlier
entries keep their index, every later entry's index drops by one — and
queue/position updates go to the remaining waiters and the host; if its
identity is the active candidate, `activeCandidate` is cleared and the one
and only emission is `candidate_disconnected` to the host. -/
theorem c5_candidate_disconnect (s : ServerState) (conn code : String) (sess : Session)
    (hrole : (connOf s conn).role = some .candidate)
    (hcode : (connOf s conn).sessionCode = some code)
    (h : s.sessions.lookup code = some sess)
    (hnd : sess.queue.Nodup)
    (hact : ∀ a ∈ sess.queue, sess.activeCandidate ≠ some a) :
    (∀ l1 l2, sess.queue = l1 ++ conn :: l2 →
      (handleDisconnect s conn).1.sessions.lookup code =
        some ⟨sess.host, l1 ++ l2, sess.activeCandidate⟩ ∧
      (∀ i, i < l1.length → (l1 ++ l2)[i]? = sess.queue[i]?) ∧
      (∀ i, l1.length ≤ i → (l1 ++ l2)[i]? = sess.queue[i + 1]?) ∧
      (handleDisconnect s conn).2 =
        (l1 ++ l2).map (fun cid =>
          Msg.queueUpdate cid (l1 ++ l2) (some ((l1 ++ l2).indexOf cid + 1))) ++
          [Msg.queueUpdate sess.host (l1 ++ l2) none]) ∧
    (sess.activeCandidate = some conn →
      (handleDisconnect s conn).1.sessions.lookup code =
        some ⟨sess.host, sess.queue, none⟩ ∧
      (handleDisconnect s conn).2 = [Msg.candidateDisconnected sess.host]) := by
  constructor
  · intro l1 l2 hq
    have hmem : conn ∈ sess.queue := by
      rw [hq]
      exact List.mem_append_right _ (List.mem_cons_self _ _)
    have hnl1 : conn ∉ l1 := by
      rw [hq, List.nodup_append] at hnd
      exact fun hc => hnd.2.2 hc (List.mem_cons_self _ _)
    have hne : ¬(sess.activeCandidate = some conn) := hact conn hmem
    have herase : sess.queue.erase conn = l1 ++ l2 := by
      rw [hq, List.erase_append_right _ hnl1, List.erase_cons_head]
    have hstep : handleDisconnect s conn =
        (⟨setEntry s.sessions code ⟨sess.host, l1 ++ l2, sess.activeCandidate⟩,
          s.conns⟩,
         (l1 ++ l2).map (fun cid =>
           Msg.queueUpdate cid (l1 ++ l2) (some ((l1 ++ l2).indexOf cid + 1))) ++
           [Msg.queueUpdate sess.host (l1 ++ l2) none]) := by
      simp [handleDisconnect, hrole, hcode, h, hmem, hne, herase]
    refine ⟨?_, ?_, ?_, ?_⟩
    · rw [hstep]
      exact lookup_setEntry_self _ _ _
    · intro i hi
      rw [hq, List.getElem?_append, List.getElem?_append, if_pos hi, if_pos hi]
    · intro i hi
      rw [hq, List.getElem?_append, List.getElem?_append,
        if_neg (Nat.not_lt.mpr hi), if_neg (Nat.not_lt.mpr (Nat.le_succ_of_le hi))]
      have : i + 1 - l1.length = (i - l1.length) + 1 := by omega
      rw [this, List.getElem?_cons_succ]
    · rw [hstep]
  · intro hacteq
    have hnmem : conn ∉ sess.queue := fun hc => hact conn hc hacteq
    have hstep : handleDisconnect s conn =
        (⟨setEntry s.sessions code ⟨sess.host, sess.queue, none⟩, s.conns⟩,
         [Msg.candidateDisconnected sess.host]) := by
      simp [handleDisconnect, hrole, hcode, h, hnmem, hacteq]
    rw [hstep]
    exact ⟨lookup_setEntry_self _ _ _, rfl⟩

theorem c5_candidate_disconnect_witness :
    (connOf ⟨[("AAAAAA", ⟨"H1", ["X1", "Y1", "Z1"], some "W1"⟩)],
        [("Y1", ⟨some .candidate, some "AAAAAA"⟩)]⟩ "Y1").role = some .candidate ∧
    (["X1", "Y1", "Z1"] : List String) = ["X1"] ++ "Y1" :: ["Z1"] ∧
    (handleDisconnect ⟨[("AAAAAA", ⟨"H1", ["X1", "Y1", "Z1"], some "W1"⟩)],
        [("Y1", ⟨some .candidate, some "AAAAAA"⟩)]⟩ "Y1").1.sessions.lookup "AAAAAA" =
      some ⟨"H1", ["X1", "Z1"], some "W1"⟩ ∧
    (handleDisconnect ⟨[("AAAAAA", ⟨"H1", ["X1", "Y1", "Z1"], some "W1"⟩)],
        [("Y1", ⟨some .candidate, some "AAAAAA"⟩)]⟩ "Y1").2 =
      [Msg.queueUpdate "X1" ["X1", "Z1"] (some 1),
       Msg.queueUpdate "Z1" ["X1", "Z1"] (some 2),
       Msg.queueUpdate "H1" ["X1", "Z1"] none] ∧
    (handleDisconnect ⟨[("AAAAAA", ⟨"H1", ["X1"], some "W1"⟩)],
        [("W1", ⟨some .candidate, some "AAAAAA"⟩)]⟩ "W1").1.sessions.lookup "AAAAAA" =
      some ⟨"H1", ["X1"], none⟩ ∧
    (handleDisconnect ⟨[("AAAAAA", ⟨"H1", ["X1"], some "W1"⟩)],
        [("W1", ⟨some .candidate, some "AAAAAA"⟩)]⟩ "W1").2 =
      [Msg.candidateDisconnected "H1"] := by
  have h1 := c5_candidate_disconnect
    ⟨[("AAAAAA", ⟨"H1", ["X1", "Y1", "Z1"], some "W1"⟩)],
     [("Y1", ⟨some .candidate, some "AAAAAA"⟩)]⟩ "Y1" "AAAAAA"
    ⟨"H1", ["X1", "Y1", "Z1"], some "W1"⟩ rfl rfl rfl (by decide) (by decide)
  have h2 := c5_candidate_disconnect
    ⟨[("AAAAAA", ⟨"H1", ["X1"], some "W1"⟩)],
     [("W1", ⟨some .candidate, some "AAAAAA"⟩)]⟩ "W1" "AAAAAA"
    ⟨"H1", ["X1"], some "W1"⟩ rfl rfl rfl (by decide) (by decide)
  have hq1 := h1.1 ["X1"] ["Z1"] rfl
  refine ⟨rfl, rfl, hq1.1, ?_, (h2.2 rfl).1, (h2.2 rfl).2⟩
  rw [hq1.2.2.2]
  decide

/-- Claim C4 (amended): when a connection whose bound role is still `host`
and whose bound session code is still `code` disconnects, session `code` is
removed from the store and — its queue being duplicate-free with the active
candidate not queued, as in every reachable state — every queued candidate
and the active candidate (if any) receive exactly one `session_deleted`,
and nobody else receives any.  (The unamended claim, quantifying over every
session the connection created, fails: the binding is overwritten if the
host later creates or joins another session — see the counterexample.) -/
theorem c4_host_disconnect (s : ServerState) (conn code : String) (sess : Session)
    (hrole : (connOf s conn).role = some .host)
    (hcode : (connOf s conn).sessionCode = some code)
    (h : s.sessions.lookup code = some sess)
    (hnd : sess.queue.Nodup)
    (hact : ∀ a ∈ sess.queue, sess.activeCandidate ≠ some a) :
    (handleDisconnect s conn).1.sessions.lookup code = none ∧
    (∀ x ∈ sess.queue, (handleDisconnect s conn).2.count (Msg.sessionDeleted x) = 1) ∧
    (∀ a, sess.activeCandidate = some a →
      (handleDisconnect s conn).2.count (Msg.sessionDeleted a) = 1) ∧
    (∀ x, x ∉ sess.queue → sess.activeCandidate ≠ some x →
      (handleDisconnect s conn).2.count (Msg.sessionDeleted x) = 0) := by
  have hinj : Function.Injective Msg.sessionDeleted := by
    intro a b hab
    cases hab
    rfl
  have hstep : handleDisconnect s conn =
      (⟨delEntry s.sessions code, s.conns⟩,
       sess.queue.map Msg.sessionDeleted ++
         (match sess.activeCandidate with
          | some a => [Msg.sessionDeleted a]
          | none => [])) := by
    simp [handleDisconnect, hrole, hcode, h]
  rw [hstep]
  refine ⟨lookup_delEntry_self _ _, ?_, ?_, ?_⟩
  · intro x hx
    rw [List.count_append, List.count_map_of_injective _ _ hinj,
      List.count_eq_one_of_mem hnd hx]
    cases hca : sess.activeCandidate with
    | none => simp
    | some a =>
      have hax : a ≠ x := fun hax => hact x hx (hax ▸ hca)
      simp [List.count_cons, hinj.ne hax]
  · intro a ha
    have hanq : a ∉ sess.queue := fun hm => hact a hm ha
    rw [ha, List.count_append, List.count_map_of_injective _ _ hinj,
      List.count_eq_zero_of_not_mem hanq]
    simp
  · intro x hx hax
    rw [List.count_append, List.count_map_of_injective _ _ hinj,
      List.count_eq_zero_of_not_mem hx]
    cases hca : sess.activeCandidate with
    | none => simp
    | some a =>
      have : a ≠ x := fun h' => hax (h' ▸ hca)
      simp [List.count_cons, hinj.ne this]

theorem c4_host_disconnect_witness :
    (connOf ⟨[("AAAAAA", ⟨"H1", ["X1", "Y1"], some "W1"⟩)],
        [("H1", ⟨some .host, some "AAAAAA"⟩)]⟩ "H1").role = some .host ∧
    (handleDisconnect ⟨[("AAAAAA", ⟨"H1", ["X1", "Y1"], some "W1"⟩)],
        [("H1", ⟨some .host, some "AAAAAA"⟩)]⟩ "H1").1.sessions.lookup "AAAAAA" = none ∧
    (handleDisconnect ⟨[("AAAAAA", ⟨"H1", ["X1", "Y1"], some "W1"⟩)],
        [("H1", ⟨some .host, some "AAAAAA"⟩)]⟩ "H1").2.count (Msg.sessionDeleted "X1") = 1 ∧
    (handleDisconnect ⟨[("AAAAAA", ⟨"H1", ["X1", "Y1"], some "W1"⟩)],
        [("H1", ⟨some .host, some "AAAAAA"⟩)]⟩ "H1").2.count (Msg.sessionDeleted "W1") = 1 ∧
    (handleDisconnect ⟨[("AAAAAA", ⟨"H1", ["X1", "Y1"], some "W1"⟩)],
        [("H1", ⟨some .host, some "AAAAAA"⟩)]⟩ "H1").2.count (Msg.sessionDeleted "Q1") = 0 := by
  have h4 := c4_host_disconnect
    ⟨[("AAAAAA", ⟨"H1", ["X1", "Y1"], some "W1"⟩)],
     [("H1", ⟨some .host, some "AAAAAA"⟩)]⟩ "H1" "AAAAAA"
    ⟨"H1", ["X1", "Y1"], some "W1"⟩ rfl rfl rfl (by decide) (by decide)
  exact ⟨rfl, h4.1, h4.2.1 "X1" (by decide), h4.2.2.1 "W1" rfl,
    h4.2.2.2 "Q1" (by decide) (by decide)⟩

/-- Claim C4 is false as stated: connection `HOSTA1` creates session
`AAAAAA` (becoming its host), then creates a second session `BBBBBB`, which
overwrites its bound session code; when it then disconnects, only `BBBBBB`
is deleted and session `AAAAAA` — whose creating host just terminated —
survives in the store (and its members, had it any, would get no notice). -/
theorem c4_host_disconnect_counterexample :
    (run [.create "HOSTA1" "AAAAAA"]).sessions.lookup "AAAAAA" =
      some ⟨"HOSTA1", [], none⟩ ∧
    (run [.create "HOSTA1" "AAAAAA", .create "HOSTA1" "BBBBBB",
          .disconnect "HOSTA1"]).sessions.lookup "BBBBBB" = none ∧
    (run [.create "HOSTA1" "AAAAAA", .create "HOSTA1" "BBBBBB",
          .disconnect "HOSTA1"]).sessions.lookup "AAAAAA" =
      some ⟨"HOSTA1", [], none⟩ := by
  refine ⟨?_, ?_, ?_⟩ <;> rfl

/-- Claim C9 (amended): across any single handled event, a connection's role
either stays what it was, or becomes `host` because that very connection
issued `create_session`, or becomes `candidate` because that very connection
issued `join_session`; a bound connection never returns to unbound.  (The
unamended claim — that a connection already bound as host or candidate never
changes role — fails: `create_session` and an enqueuing `join_session`
overwrite the role unconditionally, see the counterexample.) -/
theorem c9_role_transitions (s : ServerState) (e : Event) (conn : String) :
    ((connOf (step s e).1 conn).role = (connOf s conn).role ∨
     (∃ code, e = .create conn code ∧ (connOf (step s e).1 conn).role = some .host) ∨
     (∃ code, e = .join conn code ∧
       (connOf (step s e).1 conn).role = some .candidate)) ∧
    ((connOf s conn).role ≠ none → (connOf (step s e).1 conn).role ≠ none) := by
  have main : (connOf (step s e).1 conn).role = (connOf s conn).role ∨
      (∃ code, e = .create conn code ∧ (connOf (step s e).1 conn).role = some .host) ∨
      (∃ code, e = .join conn code ∧
        (connOf (step s e).1 conn).role = some .candidate) := by
    cases e with
    | create c2 code =>
      simp only [step, handleCreate]
      split
      · exact Or.inl rfl
      · by_cases hc : conn = c2
        · subst hc
          refine Or.inr (Or.inl ⟨code, rfl, ?_⟩)
          simp [connOf, lookup_setEntry_self]
        · refine Or.inl ?_
          simp [connOf, lookup_setEntry_ne _ _ _ _ hc]
    | join c2 code =>
      simp only [step, handleJoin]
      split
      · exact Or.inl rfl
      · split
        · by_cases hc : conn = c2
          · subst hc
            refine Or.inr (Or.inr ⟨code, rfl, ?_⟩)
            simp [connOf, lookup_setEntry_self]
          · refine Or.inl ?_
            simp [connOf, lookup_setEntry_ne _ _ _ _ hc]
        · exact Or.inl rfl
    | startNext code =>
      simp only [step, handleStartNext]
      split
      · exact Or.inl rfl
      · split <;> exact Or.inl rfl
    | endInterview code =>
      simp only [step, handleEndInterview]
      split <;> exact Or.inl rfl
    | endInterviewNow c2 =>
      simp only [step, handleEndInterviewNow]
      split <;> exact Or.inl rfl
    | relay kind sender tgt payload =>
      exact Or.inl rfl
    | disconnect c2 =>
      simp only [step, handleDisconnect]
      split
      · split
        · split <;> exact Or.inl rfl
        · exact Or.inl rfl
      · split
        · split <;> exact Or.inl rfl
        · exact Or.inl rfl
      · exact Or.inl rfl
  refine ⟨main, ?_⟩
  intro hne
  rcases main with hm | ⟨code, _, hm⟩ | ⟨code, _, hm⟩
  · rw [hm]
    exact hne
  · simp [hm]
  · simp [hm]

theorem c9_role_transitions_witness :
    ((connOf (step initState (.create "H1" "AAAAAA")).1 "H1").role =
        (connOf initState "H1").role ∨
     (∃ code, (Event.create "H1" "AAAAAA") = .create "H1" code ∧
       (connOf (step initState (.create "H1" "AAAAAA")).1 "H1").role = some .host) ∨
     (∃ code, (Event.create "H1" "AAAAAA") = .join "H1" code ∧
       (connOf (step initState (.create "H1" "AAAAAA")).1 "H1").role =
         some .candidate)) ∧
    ((connOf initState "H1").role ≠ none →
      (connOf (step initState (.create "H1" "AAAAAA")).1 "H1").role ≠ none) :=
  c9_role_transitions initState (.create "H1" "AAAAAA") "H1"

/-- Claim C9 is false as stated: connection `H1` creates session `AAAAAA`
and is bound as host; it then sends `join_session` for that same code — the
guard only checks queue membership and the active slot, so `H1` is enqueued
in its own session and its role is overwritten from host to candidate. -/
theorem c9_role_transitions_counterexample :
    (connOf (run [.create "H1" "AAAAAA"]) "H1").role = some .host ∧
    (connOf (run [.create "H1" "AAAAAA", .join "H1" "AAAAAA"]) "H1").role =
      some .candidate ∧
    some Role.host ≠ some Role.candidate := by
  refine ⟨rfl, rfl, by decide⟩
